import Mathlib

/-!
Verification development for the follower-tracker repository.

The repository reads a follow graph from an on-chain ledger (LSP26), derives
mutual / one-way relationship sets, ranks follow recommendations by
second-degree overlap, and performs batched follow/unfollow mutations with a
per-item fallback.  This file gives a shallow embedding of the relevant
functions:

- `getFollowerCount`, `getFollowingCount`, `getAllFollowers`, `getAllFollowing`,
  `getMutualConnections` from `src/lib/supabase.ts` (class `LSP26FollowerSystem`);
  each network read is represented by an `Except Unit _` field of `LedgerEnv`,
  and the try/catch blocks of the source become pattern matches on it.
- the Dashboard statistics derivation `fetchStats` from `components/Dashboard.tsx`.
- the paginated follower reconstruction and the recommendation pipeline of
  `components/ProfileRecommendations.tsx` (`generateRecommendations`).
- the batched follow orchestration `handleFollowSelected` of the follower list
  component (`src/unnamed/part_005`).

JavaScript idioms are modelled explicitly: `Array.from(new Set(xs))` becomes
`jsDedup` (first-occurrence order), `Map` becomes an insertion-ordered
association list (`mapGet` / `mapSet`), `Math.round` on nonnegative reals
becomes `jsRound` over `ℚ`, and machine numbers are `Nat` / `Int` (the source
only ever handles small nonnegative counts).
-/

/-- Model of JavaScript `s.toLowerCase()` for the identifier strings used by
the source (hex addresses). -/
def lowerStr (s : String) : String := String.mk (s.data.map Char.toLower)

/-- Lower-case every identifier of a list, as the source does before building
its lookup `Set`s. -/
def lowerList (l : List String) : List String := l.map lowerStr

/-- Worker of `jsDedup`: emit the elements of the list not yet seen, in
order, remembering what has been emitted. -/
def jsDedupFrom {α : Type} [DecidableEq α] (seen : List α) : List α → List α
  | [] => []
  | x :: xs =>
    if x ∈ seen then jsDedupFrom seen xs
    else x :: jsDedupFrom (x :: seen) xs

/-- Model of JavaScript `Array.from(new Set(xs))`: remove duplicates keeping
the first occurrence of each element, in order. -/
def jsDedup {α : Type} [DecidableEq α] (l : List α) : List α := jsDedupFrom [] l

theorem jsDedupFrom_mem {α : Type} [DecidableEq α] (l : List α) :
    ∀ (seen : List α) (a : α), a ∈ jsDedupFrom seen l ↔ a ∈ l ∧ a ∉ seen := by
  induction l with
  | nil => intro seen a; simp [jsDedupFrom]
  | cons x xs ih =>
    intro seen a
    unfold jsDedupFrom
    by_cases hx : x ∈ seen
    · rw [if_pos hx, ih]
      constructor
      · rintro ⟨h1, h2⟩
        exact ⟨List.mem_cons_of_mem _ h1, h2⟩
      · rintro ⟨h1, h2⟩
        rcases List.mem_cons.1 h1 with rfl | h1
        · exact absurd hx h2
        · exact ⟨h1, h2⟩
    · rw [if_neg hx]
      simp only [List.mem_cons, ih]
      constructor
      · rintro (rfl | ⟨h1, h2⟩)
        · exact ⟨Or.inl rfl, hx⟩
        · exact ⟨Or.inr h1, fun hc => h2 (Or.inr hc)⟩
      · rintro ⟨h1 | h1, h2⟩
        · exact Or.inl h1
        · by_cases hax : a = x
          · exact Or.inl hax
          · exact Or.inr ⟨h1, fun hc => hc.elim hax h2⟩

theorem jsDedup_mem {α : Type} [DecidableEq α] (l : List α) (a : α) :
    a ∈ jsDedup l ↔ a ∈ l := by
  unfold jsDedup
  rw [jsDedupFrom_mem]
  simp

theorem jsDedupFrom_nodup {α : Type} [DecidableEq α] (l : List α) :
    ∀ seen : List α, (jsDedupFrom seen l).Nodup := by
  induction l with
  | nil => intro seen; simp [jsDedupFrom]
  | cons x xs ih =>
    intro seen
    unfold jsDedupFrom
    by_cases hx : x ∈ seen
    · rw [if_pos hx]; exact ih seen
    · rw [if_neg hx]
      refine List.nodup_cons.2 ⟨?_, ih _⟩
      intro hc
      exact ((jsDedupFrom_mem xs _ x).1 hc).2 (List.mem_cons_self _ _)

theorem jsDedup_nodup {α : Type} [DecidableEq α] (l : List α) :
    (jsDedup l).Nodup := jsDedupFrom_nodup l []

theorem jsDedup_toFinset {α : Type} [DecidableEq α] (l : List α) :
    (jsDedup l).toFinset = l.toFinset := by
  ext a
  simp [jsDedup_mem]

/-- Environment for one `getMutualConnections` run: the four RPC reads the
source issues, each of which can fail (`Except.error`).  The source catches
every failure at the call site. -/
structure LedgerEnv where
  followerCountRPC : Except Unit Nat
  followingCountRPC : Except Unit Nat
  followersByIndexRPC : Except Unit (List String)
  followsByIndexRPC : Except Unit (List String)

/-- Model of `LSP26FollowerSystem.getFollowerCount`: the `catch` branch of the
source logs the error and returns `0`. -/
def getFollowerCount (env : LedgerEnv) : Nat :=
  match env.followerCountRPC with
  | .ok n => n
  | .error _ => 0

/-- Model of `LSP26FollowerSystem.getFollowingCount`: the `catch` branch of the
source logs the error and returns `0`. -/
def getFollowingCount (env : LedgerEnv) : Nat :=
  match env.followingCountRPC with
  | .ok n => n
  | .error _ => 0

/-- Model of `LSP26FollowerSystem.getAllFollowers`: returns `[]` when the count
is `0` and also when the range read fails (the `catch` branch). -/
def getAllFollowers (env : LedgerEnv) : List String :=
  if getFollowerCount env = 0 then []
  else
    match env.followersByIndexRPC with
    | .ok l => l
    | .error _ => []

/-- Model of `LSP26FollowerSystem.getAllFollowing`, symmetric to
`getAllFollowers`. -/
def getAllFollowing (env : LedgerEnv) : List String :=
  if getFollowingCount env = 0 then []
  else
    match env.followsByIndexRPC with
    | .ok l => l
    | .error _ => []

/-- Result record of `getMutualConnections`. -/
structure MutualResult where
  allFollowers : List String
  allFollowing : List String
  mutualConnections : List String
  mutualCount : Nat
deriving DecidableEq

/-- Model of `LSP26FollowerSystem.getMutualConnections`: short-circuits to the
empty result when either count is `0`, otherwise fetches both lists, lower
cases them, walks `allFollowing` collecting entries whose lower-cased form is
in the follower set, deduplicates and counts. -/
def getMutualConnections (env : LedgerEnv) : MutualResult :=
  let followerCount := getFollowerCount env
  let followingCount := getFollowingCount env
  if followerCount = 0 ∨ followingCount = 0 then
    ⟨[], [], [], 0⟩
  else
    let allFollowers := getAllFollowers env
    let allFollowing := getAllFollowing env
    let followerSet := lowerList allFollowers
    let mutualConnections := (lowerList allFollowing).filter (fun a => a ∈ followerSet)
    let uniqueMutual := jsDedup mutualConnections
    ⟨allFollowers, allFollowing, uniqueMutual, uniqueMutual.length⟩

/-- Environment whose four reads all succeed and whose counts agree with the
fetched lists (a fixed, consistent ledger state). -/
def okEnv (followers following : List String) : LedgerEnv :=
  ⟨.ok followers.length, .ok following.length, .ok followers, .ok following⟩

/-- Statistics derived by `fetchStats` in `components/Dashboard.tsx` from the
`getMutualConnections` result. -/
structure DashStats where
  followerCount : Nat
  followingCount : Nat
  mutualCount : Nat
  nonMutualCount : Int
  nonFollowingBack : Int
  suggestedProfiles : Nat
deriving DecidableEq

/-- Model of `fetchStats` (`components/Dashboard.tsx`): the one-way counts are
plain subtractions from the list lengths. -/
def fetchStats (env : LedgerEnv) : DashStats :=
  let r := getMutualConnections env
  { followerCount := r.allFollowers.length
    followingCount := r.allFollowing.length
    mutualCount := r.mutualCount
    nonMutualCount := (r.allFollowers.length : Int) - (r.mutualCount : Int)
    nonFollowingBack := (r.allFollowing.length : Int) - (r.mutualCount : Int)
    suggestedProfiles :=
      if 0 < r.allFollowers.length ∨ 0 < r.allFollowing.length then 25 else 0 }

/-- The ledger-imposed page bound of `src/lib/supabase.ts` (`PAGE_SIZE = 50`). -/
def PAGE_SIZE : Nat := 50

/-- The loop page size used by `generateRecommendations` in
`components/ProfileRecommendations.tsx` (`const batchSize = 100`). -/
def recBatchSize : Nat := 100

/-- Model of `LSP26FollowerSystem.getFollowers(address, startIndex)` against a
fixed ledger whose follower list is `ledger` (so `followerCount` is its
length).  Per the LSP26 contract, `getFollowersByIndex(addr, start, end)`
returns the contiguous index range `[start, end)`; the source clamps
`end := min (start + PAGE_SIZE) followerCount` and returns `[]` when the count
is `0`.  `getFollowing(address, startIndex)` is the same function applied to
the following list. -/
def getFollowersPage (ledger : List String) (startIndex : Nat) : List String :=
  if ledger.length = 0 then []
  else
    let endIndex := min (startIndex + PAGE_SIZE) ledger.length
    (ledger.drop startIndex).take (endIndex - startIndex)

/-- Model of the pagination `while` loop of `generateRecommendations`: fetch
the page at `page * batchSize`, append, and continue only while the fetched
batch has exactly `batchSize = 100` entries.  The recursion is fuelled; since
every page holds at most `PAGE_SIZE = 50 < 100` entries the continue branch is
never taken, so one unit of fuel already makes the model exact
(`recFetchAllAux_eq_page` below). -/
def recFetchAllAux (ledger : List String) : Nat → Nat → List String
  | 0, _ => []
  | fuel + 1, page =>
    let batch := getFollowersPage ledger (page * recBatchSize)
    if batch.length = recBatchSize then batch ++ recFetchAllAux ledger fuel (page + 1)
    else batch

/-- The complete-pagination reconstruction used by the recommendation flow:
the result the `while (hasMoreFollowers)` loop leaves in `allFollowers` (and
symmetrically in `allFollowing`). -/
def recFetchAll (ledger : List String) : List String :=
  recFetchAllAux ledger 1 0

/-- Per-candidate accumulator record of `generateRecommendations`
(`{ mutualCount, sources }`). -/
structure CandData where
  mutualCount : Nat
  sources : List String
deriving DecidableEq

/-- A JavaScript `Map` as an insertion-ordered association list. -/
abbrev CandMap : Type := List (String × CandData)

/-- Model of `Map.get`. -/
def mapGet (m : CandMap) (k : String) : Option CandData :=
  (m.find? (fun p => p.1 == k)).map (fun p => p.2)

/-- Model of `Map.set`: replace the value in place when the key exists
(keeping insertion order), otherwise append. -/
def mapSet (m : CandMap) (k : String) (v : CandData) : CandMap :=
  if m.any (fun p => p.1 == k) then
    m.map (fun p => if p.1 == k then (k, v) else p)
  else m ++ [(k, v)]

/-- Model of the inner candidate loop of `generateRecommendations` step 3: for
every `potentialAddress` of the list of a seed account, skip the requester and
already-followed accounts, otherwise bump `mutualCount` and record the seed in
`sources` (deduplicated). -/
def candAccumulate (user : String) (followingSet : List String) (seed : String)
    (potentials : List String) (m : CandMap) : CandMap :=
  potentials.foldl
    (fun m p =>
      if lowerStr p == lowerStr user || followingSet.contains (lowerStr p) then m
      else
        let d := (mapGet m p).getD ⟨0, []⟩
        mapSet m p
          ⟨d.mutualCount + 1,
           if d.sources.contains seed then d.sources else d.sources ++ [seed]⟩)
    m

/-- The `mutualFollowers` list of `generateRecommendations`: followers whose
lower-cased address is in the lower-cased following set. -/
def mutualFollowersOf (allFollowers allFollowing : List String) : List String :=
  allFollowers.filter (fun a => (lowerList allFollowing).contains (lowerStr a))

/-- The extended network seed of `generateRecommendations`: the first 20
mutual followers, then the first 20 followers, then the first 20 following —
a plain concatenation. -/
def extendedNetworkOf (allFollowers allFollowing : List String) : List String :=
  (mutualFollowersOf allFollowers allFollowing).take 20 ++
    allFollowers.take 20 ++ allFollowing.take 20

/-- Model of `Math.round (num / den)` for nonnegative operands: the exact
rational `num / den` rounded half-up.  The source computes the quotient in
JavaScript doubles; all quantities handled here are small and nonnegative and
are modelled by exact rational rounding. -/
def jsRoundDiv (num den : Nat) : Nat := (2 * num + den) / (2 * den)

/-- Model of `sortedCandidates.indexOf([address, data])` in the score
computation of `generateRecommendations`: `[address, data]` constructs a fresh
array and `Array.prototype.indexOf` compares by strict (reference) equality,
so the lookup returns `-1` for every candidate. -/
def jsArrayIndexOfFresh : Int := -1

/-- Score assigned to a network-derived candidate by `generateRecommendations`
(`weightedScore`): base is `Math.round((mutualCount / extLen) * 100 * 0.7)`
when the requester has mutual followers and a random draw in `[60, 95]`
otherwise; then the recency bonus `Math.round(20 * 0.3) = 6` is added whenever
`sortedCandidates.indexOf([address, data]) < 20` — which, by
`jsArrayIndexOfFresh`, is every candidate — and the result is clamped to
`[50, 98]`. -/
def codeScore (hasMutual : Bool) (rand : Nat) (mutualCount extLen : Nat) : Nat :=
  let base :=
    if hasMutual then jsRoundDiv (mutualCount * 100 * 7) (extLen * 10) else rand
  let withBonus :=
    if jsArrayIndexOfFresh < 20 then base + jsRoundDiv (20 * 3) 10 else base
  min 98 (max 50 withBonus)

/-- Score formula as the specification words it (claim C6): the recency bonus
of `6` goes exactly to the candidates at the first `20` ranked positions. -/
def claimScoreC6 (mutualCount seedSize position : Nat) : Nat :=
  let recencyBonus := if position < 20 then jsRoundDiv (20 * 3) 10 else 0
  min 98 (max 50 (jsRoundDiv (100 * mutualCount * 7) (seedSize * 10) + recencyBonus))

/-- One finalized recommendation entry (the fields of `RecommendedProfile`
relevant to the graph logic). -/
structure RecOut where
  address : String
  score : Nat
  mutualFollowers : Nat
  sources : List String
deriving DecidableEq

/-- Stable insertion of `x` after every element `y` with `le y x`. -/
def stableInsert {α : Type} (le : α → α → Bool) (x : α) : List α → List α
  | [] => [x]
  | y :: ys => if le y x then y :: stableInsert le x ys else x :: y :: ys

/-- Stable sort (insertion sort).  JavaScript `Array.prototype.sort` is
required to be stable, and any two stable sorts agree on a consistent
comparator, so this models `.sort((a, b) => b[1].mutualCount - a[1].mutualCount)`
with `le a b := b.mutualCount ≤ a.mutualCount`. -/
def stableSort {α : Type} (le : α → α → Bool) (l : List α) : List α :=
  l.foldl (fun acc x => stableInsert le x acc) []

/-- Environment of one `generateRecommendations` run: the requesting account,
the ledger lists (`followersOf` / `followingOf`), the ledger state observed by
the re-verification pass (`followingOfLater`, which may differ because of the
race the source defends against), the per-candidate `isFollowing` reads at
finalization time, and the `Math.random` draws used when the requester has no
mutual followers. -/
structure Chain where
  user : String
  followersOf : String → List String
  followingOf : String → List String
  followingOfLater : String → List String
  isFollowingNow : String → String → Bool
  randFor : String → Nat

/-- The candidate map built by step 3 of `generateRecommendations`: every seed
account of the extended network contributes its following list and then its
followers list. -/
def buildCandidates (ch : Chain) (followingSet : List String)
    (extNet : List String) : CandMap :=
  extNet.foldl
    (fun m seed =>
      candAccumulate ch.user followingSet seed (ch.followersOf seed)
        (candAccumulate ch.user followingSet seed (ch.followingOf seed) m))
    []

/-- The finalization loop of `generateRecommendations`: walk the ranked
candidates, drop those found in the freshly re-fetched following set, drop
those for which the per-candidate `isFollowing` read answers `true`, and emit
a scored entry for the rest (sources capped at 10). -/
def finalizeCandidates (ch : Chain) (hasMutual : Bool) (extLen : Nat)
    (currentFollowingSet : List String) (sorted : CandMap) : List RecOut :=
  sorted.foldl
    (fun acc p =>
      if currentFollowingSet.contains (lowerStr p.1) then acc
      else if ch.isFollowingNow ch.user p.1 then acc
      else
        acc ++ [⟨p.1, codeScore hasMutual (ch.randFor p.1) p.2.mutualCount extLen,
                p.2.mutualCount, p.2.sources.take 10⟩])
    []

/-- Model of `generateRecommendations` (`components/ProfileRecommendations.tsx`).
Returns `none` whenever the source delegates to the random fallback
(`generateRandomRecommendations`): no edges at all, no candidates, or fewer
than 5 survivors. -/
def generateRecommendations (ch : Chain) : Option (List RecOut) :=
  let allFollowers := recFetchAll (ch.followersOf ch.user)
  let allFollowing := recFetchAll (ch.followingOf ch.user)
  let followingSet := lowerList allFollowing
  if allFollowers.length = 0 ∧ allFollowing.length = 0 then none
  else
    let mutualFollowers := mutualFollowersOf allFollowers allFollowing
    let extNet := extendedNetworkOf allFollowers allFollowing
    let cands := buildCandidates ch followingSet extNet
    if cands.length = 0 then none
    else
      let sorted :=
        (stableSort (fun a b => b.2.mutualCount ≤ a.2.mutualCount) cands).take 50
      let currentFollowing := recFetchAll (ch.followingOfLater ch.user)
      let currentFollowingSet := lowerList currentFollowing
      let recs :=
        finalizeCandidates ch (mutualFollowers.length ≠ 0) extNet.length
          currentFollowingSet sorted
      if recs.length < 5 then none else some recs

/-- The batch cap of `followMany` / `unfollowMany` and of the list component
(`const MAX_BATCH_SIZE = 50`). -/
def MAX_BATCH_SIZE : Nat := 50

/-- Model of the slice inside `LSP26FollowerSystem.followMany`: the address
list actually submitted in the batch transaction. -/
def followManyProcessed (addrs : List String) : List String :=
  if addrs.length > MAX_BATCH_SIZE then addrs.take MAX_BATCH_SIZE else addrs

/-- Environment of one `handleFollowSelected` run (`src/unnamed/part_005`):
whether the batched transaction succeeds, and which individual `follow` calls
succeed. -/
structure BatchEnv where
  batchOk : Bool
  singleOk : String → Bool

/-- Outcome record of `handleFollowSelected`: the per-address results array,
the derived `successCount`, the requested total, whether the success toast
(`successCount === selectedFollowers.length`) fires, and the address list
submitted to the batched mutation (if one was issued). -/
structure BatchReport where
  results : List (String × Bool)
  successCount : Nat
  requested : Nat
  allSucceeded : Bool
  batchSubmitted : Option (List String)
deriving DecidableEq

/-- Model of `addresses.map((address, index) => ({ address, success: index <
MAX_BATCH_SIZE }))`: walk the list with its index, marking an entry successful
exactly when its index is below the cap. -/
def markProcessed (cap : Nat) : Nat → List String → List (String × Bool)
  | _, [] => []
  | i, a :: rest => (a, decide (i < cap)) :: markProcessed cap (i + 1) rest

/-- The `results` array built by `handleFollowSelected`:
- a single selection issues one individual `follow`;
- more than `MAX_BATCH_SIZE` selections pre-truncate to the first 50, submit
  them as a batch and mark exactly the indices `< 50` as successes;
- otherwise the whole list is submitted as a batch and marked successful;
- whenever the batched call throws, every selected account is retried
  individually, each attempt caught on its own. -/
def followSelectedResults (env : BatchEnv) (addrs : List String) : List (String × Bool) :=
  if addrs.length = 1 then addrs.map (fun a => (a, env.singleOk a))
  else if addrs.length > MAX_BATCH_SIZE then
    if env.batchOk then markProcessed MAX_BATCH_SIZE 0 addrs
    else addrs.map (fun a => (a, env.singleOk a))
  else
    if env.batchOk then addrs.map (fun a => (a, true))
    else addrs.map (fun a => (a, env.singleOk a))

/-- Model of `handleFollowSelected` for a nonempty selection (the source
returns early on an empty one).  `handleUnfollowSelected` is the same
orchestration with the opposite mutation. -/
def handleFollowSelected (env : BatchEnv) (addrs : List String) : BatchReport :=
  let results := followSelectedResults env addrs
  let successCount := (results.filter (fun r => r.2)).length
  { results := results
    successCount := successCount
    requested := addrs.length
    allSucceeded := successCount = addrs.length
    batchSubmitted :=
      if addrs.length = 1 then none
      else if addrs.length > MAX_BATCH_SIZE then some (addrs.take MAX_BATCH_SIZE)
      else some addrs }

/-- Model of the `updatedFollowers` construction after the mutation set: an
entry is marked followed (and mutual) exactly when its address has a
successful result. -/
def updateFollowers (followers : List (String × Bool))
    (results : List (String × Bool)) : List (String × Bool) :=
  followers.map
    (fun f =>
      match results.find? (fun r => r.1 == f.1) with
      | some r => if r.2 then (f.1, true) else f
      | none => f)

/-- Observable outcome of a bulk-follow handler in
`components/Followers.tsx`: the addresses actually submitted on-chain, the
profiles the component marks as followed afterwards, and the count the
success toast reports. -/
structure BulkReport where
  batchSubmitted : List String
  markedFollowed : List String
  toastedCount : Nat
deriving DecidableEq

/-- Model of `handleFollowSelected` in `components/Followers.tsx` (both the
follower-list handler and the identical one-way variant) for a
multi-selection whose batched call succeeds: the whole selection is passed to
`followMany` — which truncates silently to the first `MAX_BATCH_SIZE`
targets — and on success the component marks every selected profile as
followed and toasts that the full selection count was successfully
followed. -/
def followersBulkFollow (selectedProfiles : List String) : BulkReport :=
  { batchSubmitted := followManyProcessed selectedProfiles
    markedFollowed := selectedProfiles
    toastedCount := selectedProfiles.length }

/-! Helper lemmas about the embedded operations. -/

theorem mutualConnections_short_circuit (env : LedgerEnv)
    (h : getFollowerCount env = 0 ∨ getFollowingCount env = 0) :
    getMutualConnections env = ⟨[], [], [], 0⟩ := by
  unfold getMutualConnections
  simp only [if_pos h]

theorem getFollowersPage_length_le (ledger : List String) (s : Nat) :
    (getFollowersPage ledger s).length ≤ PAGE_SIZE := by
  unfold getFollowersPage
  split
  · simp [PAGE_SIZE]
  · refine le_trans (List.length_take_le _ _) ?_
    omega

theorem recFetchAllAux_eq_page (ledger : List String) (fuel page : Nat) :
    recFetchAllAux ledger (fuel + 1) page = getFollowersPage ledger (page * recBatchSize) := by
  unfold recFetchAllAux
  have h := getFollowersPage_length_le ledger (page * recBatchSize)
  rw [if_neg]
  intro hc
  rw [hc] at h
  simp [PAGE_SIZE, recBatchSize] at h

theorem recFetchAll_eq_take (ledger : List String) :
    recFetchAll ledger = ledger.take PAGE_SIZE := by
  unfold recFetchAll
  rw [recFetchAllAux_eq_page]
  unfold getFollowersPage
  split
  · rename_i h
    rw [List.length_eq_zero.mp h]
    simp
  · simp only [Nat.zero_mul, Nat.zero_add, List.drop_zero, Nat.sub_zero]
    rcases Nat.le_total ledger.length PAGE_SIZE with h | h
    · rw [Nat.min_eq_right h, List.take_length, List.take_of_length_le h]
    · rw [Nat.min_eq_left h]

theorem getMutualConnections_okEnv (f g : List String) (hf : f ≠ []) (hg : g ≠ []) :
    getMutualConnections (okEnv f g) =
      ⟨f, g, jsDedup ((lowerList g).filter (fun a => a ∈ lowerList f)),
       (jsDedup ((lowerList g).filter (fun a => a ∈ lowerList f))).length⟩ := by
  have hf' : f.length ≠ 0 := by simpa using List.length_pos.mpr hf |>.ne'
  have hg' : g.length ≠ 0 := by simpa using List.length_pos.mpr hg |>.ne'
  unfold getMutualConnections getAllFollowers getAllFollowing
  simp [okEnv, getFollowerCount, getFollowingCount, hf', hg']

theorem mutual_toFinset (f g : List String) :
    (jsDedup ((lowerList g).filter (fun a => a ∈ lowerList f))).toFinset =
      (lowerList f).toFinset ∩ (lowerList g).toFinset := by
  ext a
  simp only [List.mem_toFinset, jsDedup_mem, List.mem_filter, Finset.mem_inter,
    decide_eq_true_eq]
  exact and_comm

theorem mutual_length_card (f g : List String) :
    (jsDedup ((lowerList g).filter (fun a => a ∈ lowerList f))).length =
      ((lowerList f).toFinset ∩ (lowerList g).toFinset).card := by
  rw [← mutual_toFinset, List.toFinset_card_of_nodup (jsDedup_nodup _)]

/-! Claim theorems. -/

/-- C1: for every account, `getMutualConnections` returns `mutualConnections`
equal to the case-insensitive intersection of the follower set and the
following set and `mutualCount` equal to its cardinality, and the intersection
is direction-independent; in the concrete scenario followers = B, C, D and
following = C, D, E it yields mutual = c, d with `mutualCount = 2`, and the
Dashboard derives `nonMutualCount = 3 - 2 = 1` and
`nonFollowingBack = 3 - 2 = 1`. -/
theorem getMutualConnections_intersection :
    (∀ f g : List String,
      ((getMutualConnections (okEnv f g)).mutualConnections).toFinset =
          (lowerList f).toFinset ∩ (lowerList g).toFinset ∧
        (getMutualConnections (okEnv f g)).mutualCount =
          ((lowerList f).toFinset ∩ (lowerList g).toFinset).card ∧
        (lowerList f).toFinset ∩ (lowerList g).toFinset =
          (lowerList g).toFinset ∩ (lowerList f).toFinset) ∧
    (getMutualConnections (okEnv ["0xB", "0xC", "0xD"] ["0xC", "0xD", "0xE"])).mutualConnections
        = ["0xc", "0xd"] ∧
    (getMutualConnections (okEnv ["0xB", "0xC", "0xD"] ["0xC", "0xD", "0xE"])).mutualCount = 2 ∧
    (fetchStats (okEnv ["0xB", "0xC", "0xD"] ["0xC", "0xD", "0xE"])).nonMutualCount = 1 ∧
    (fetchStats (okEnv ["0xB", "0xC", "0xD"] ["0xC", "0xD", "0xE"])).nonFollowingBack = 1 := by
  refine ⟨?_, by decide, by decide, by decide, by decide⟩
  intro f g
  rcases eq_or_ne f [] with rfl | hf
  · have h0 : getMutualConnections (okEnv [] g) = ⟨[], [], [], 0⟩ :=
      mutualConnections_short_circuit _ (Or.inl (by simp [okEnv, getFollowerCount]))
    simp [h0, lowerList]
  · rcases eq_or_ne g [] with rfl | hg
    · have h0 : getMutualConnections (okEnv f []) = ⟨[], [], [], 0⟩ :=
        mutualConnections_short_circuit _ (Or.inr (by simp [okEnv, getFollowingCount]))
      simp [h0, lowerList]
    · rw [getMutualConnections_okEnv f g hf hg]
      exact ⟨mutual_toFinset f g, mutual_length_card f g, Finset.inter_comm _ _⟩

/-- C2 (evaluation at the failing input): the pagination loop of
`generateRecommendations` stops after its very first page, because a page
holds at most `PAGE_SIZE = 50` entries while the loop continues only on a
batch of exactly `batchSize = 100`; so for every ledger it returns only the
first 50 followers, and on a 51-follower ledger it loses the 51st instead of
returning all 51 exactly once. -/
theorem recommendation_pagination_drops_followers :
    (∀ ledger : List String, recFetchAll ledger = ledger.take PAGE_SIZE) ∧
    recFetchAll ((List.range 51).map (fun i => toString i)) =
      ((List.range 51).map (fun i => toString i)).take 50 ∧
    (recFetchAll ((List.range 51).map (fun i => toString i))).length = 50 ∧
    ((List.range 51).map (fun i => toString i)).length = 51 := by
  refine ⟨recFetchAll_eq_take, recFetchAll_eq_take _, ?_, by simp⟩
  rw [recFetchAll_eq_take]
  simp [PAGE_SIZE]

/-- C3 (counterexample): an aggregation whose two range reads fail returns the
very same ordinary value as an aggregation over an account with no followers
and no following — `getMutualConnections` surfaces no error at all, the
failure is silently converted into the empty snapshot. -/
theorem aggregation_failure_indistinguishable :
    getMutualConnections ⟨.ok 1, .ok 1, .error (), .error ()⟩ =
      getMutualConnections ⟨.ok 0, .ok 0, .ok [], .ok []⟩ ∧
    getMutualConnections ⟨.ok 1, .ok 1, .error (), .error ()⟩ = ⟨[], [], [], 0⟩ := by
  decide

/-- C3 (amended): when the follower range read fails (counts being positive),
`getMutualConnections` catches the failure and silently returns a partial
snapshot: `allFollowers` empty, `mutualConnections` empty, `mutualCount = 0`,
while `allFollowing` still carries whatever the other fetch produced.  No
error reaches the caller. -/
theorem getMutualConnections_silent_empty_on_fetch_failure (env : LedgerEnv)
    (hn : getFollowerCount env ≠ 0) (hm : getFollowingCount env ≠ 0)
    (hf : env.followersByIndexRPC = .error ()) :
    (getMutualConnections env).allFollowers = [] ∧
    (getMutualConnections env).mutualConnections = [] ∧
    (getMutualConnections env).mutualCount = 0 ∧
    (getMutualConnections env).allFollowing = getAllFollowing env := by
  have hA : getAllFollowers env = [] := by
    unfold getAllFollowers
    rw [if_neg hn, hf]
  unfold getMutualConnections
  rw [if_neg (by push_neg; exact ⟨hn, hm⟩)]
  simp [hA, lowerList, jsDedup, jsDedupFrom]

/-- C3 amended, witness: a concrete environment with positive counts, a
failing follower fetch and a successful following fetch yields the partial
snapshot with the fetched following list and nothing else. -/
theorem getMutualConnections_silent_empty_on_fetch_failure_witness :
    getFollowerCount ⟨.ok 1, .ok 1, .error (), .ok ["0xb"]⟩ ≠ 0 ∧
    getFollowingCount ⟨.ok 1, .ok 1, .error (), .ok ["0xb"]⟩ ≠ 0 ∧
    ((getMutualConnections ⟨.ok 1, .ok 1, .error (), .ok ["0xb"]⟩).allFollowers = [] ∧
      (getMutualConnections ⟨.ok 1, .ok 1, .error (), .ok ["0xb"]⟩).mutualConnections = [] ∧
      (getMutualConnections ⟨.ok 1, .ok 1, .error (), .ok ["0xb"]⟩).mutualCount = 0 ∧
      (getMutualConnections ⟨.ok 1, .ok 1, .error (), .ok ["0xb"]⟩).allFollowing =
        getAllFollowing ⟨.ok 1, .ok 1, .error (), .ok ["0xb"]⟩) :=
  ⟨by decide, by decide,
   getMutualConnections_silent_empty_on_fetch_failure _ (by decide) (by decide) rfl⟩

/-- C4 (counterexample): a failing `followerCount` (or `followingCount`) RPC
is returned as the count `0`, the very value produced for an account with no
followers — the failure is silently converted, not surfaced. -/
theorem count_error_indistinguishable_from_zero :
    getFollowerCount ⟨.error (), .ok 0, .ok [], .ok []⟩ = 0 ∧
    getFollowerCount ⟨.ok 0, .ok 0, .ok [], .ok []⟩ = 0 ∧
    getFollowingCount ⟨.ok 0, .error (), .ok [], .ok []⟩ = 0 ∧
    getFollowingCount ⟨.ok 0, .ok 0, .ok [], .ok []⟩ = 0 := by
  decide

/-- C4 (amended): on a network/RPC failure `getFollowerCount` and
`getFollowingCount` catch the error, log it, and return `0`; no
`LedgerUnavailable`-style error is surfaced to the caller, so a failure is
indistinguishable from an account with no followers. -/
theorem count_error_returns_zero (env : LedgerEnv) :
    (env.followerCountRPC = .error () → getFollowerCount env = 0) ∧
    (env.followingCountRPC = .error () → getFollowingCount env = 0) := by
  constructor
  · intro h
    unfold getFollowerCount
    rw [h]
  · intro h
    unfold getFollowingCount
    rw [h]

/-- C4 amended, witness. -/
theorem count_error_returns_zero_witness :
    (LedgerEnv.mk (.error ()) (.error ()) (.ok []) (.ok [])).followerCountRPC = .error () ∧
    getFollowerCount ⟨.error (), .error (), .ok [], .ok []⟩ = 0 ∧
    getFollowingCount ⟨.error (), .error (), .ok [], .ok []⟩ = 0 :=
  ⟨rfl, (count_error_returns_zero ⟨.error (), .error (), .ok [], .ok []⟩).1 rfl,
   (count_error_returns_zero ⟨.error (), .error (), .ok [], .ok []⟩).2 rfl⟩

/-- C9 (counterexample): the extended network seed is a plain concatenation;
for an account whose single follower also is its single following, the seed
contains that account three times — it is not deduplicated. -/
theorem extendedNetwork_not_deduplicated :
    extendedNetworkOf ["0xb"] ["0xb"] = ["0xb", "0xb", "0xb"] ∧
    ¬ (extendedNetworkOf ["0xb"] ["0xb"]).Nodup := by
  decide

/-- C9 (amended): the extended network seed takes at most 20 accounts from
mutual, at most 20 from followers and at most 20 from following, in that
order with mutual first, for at most 60 entries in total, and every entry is
a follower or a followed account of the requester; it is NOT
deduplicated — an account occurring in several source lists occurs several
times. -/
theorem extendedNetwork_structure (f g : List String) :
    extendedNetworkOf f g =
      (mutualFollowersOf f g).take 20 ++ f.take 20 ++ g.take 20 ∧
    ((mutualFollowersOf f g).take 20).length ≤ 20 ∧
    (f.take 20).length ≤ 20 ∧
    (g.take 20).length ≤ 20 ∧
    (extendedNetworkOf f g).length ≤ 60 ∧
    ∀ a ∈ extendedNetworkOf f g, a ∈ f ∨ a ∈ g := by
  refine ⟨rfl, List.length_take_le _ _, List.length_take_le _ _, List.length_take_le _ _,
    ?_, ?_⟩
  · unfold extendedNetworkOf
    simp only [List.length_append]
    have h1 := List.length_take_le 20 (mutualFollowersOf f g)
    have h2 := List.length_take_le 20 f
    have h3 := List.length_take_le 20 g
    omega
  · intro a ha
    unfold extendedNetworkOf at ha
    rcases List.mem_append.1 ha with ha | ha
    · rcases List.mem_append.1 ha with ha | ha
      · have := List.mem_of_mem_take ha
        exact Or.inl (List.mem_of_mem_filter this)
      · exact Or.inl (List.mem_of_mem_take ha)
    · exact Or.inr (List.mem_of_mem_take ha)

/-- C9 amended, witness. -/
theorem extendedNetwork_structure_witness :
    (extendedNetworkOf ["0xb"] ["0xc"]).length ≤ 60 ∧
    "0xb" ∈ extendedNetworkOf ["0xb"] ["0xc"] ∧
    ("0xb" ∈ (["0xb"] : List String) ∨ "0xb" ∈ (["0xc"] : List String)) :=
  ⟨(extendedNetwork_structure ["0xb"] ["0xc"]).2.2.2.2.1, by decide,
   (extendedNetwork_structure ["0xb"] ["0xc"]).2.2.2.2.2 "0xb" (by decide)⟩

/-- C10: whenever either count read reports `0` — including when it failed
and was converted to `0` — `getMutualConnections` short-circuits to the fully
empty result, even if the other direction is non-empty. -/
theorem getMutualConnections_zero_count_short_circuit (env : LedgerEnv)
    (h : getFollowerCount env = 0 ∨ getFollowingCount env = 0) :
    getMutualConnections env = ⟨[], [], [], 0⟩ :=
  mutualConnections_short_circuit env h

/-- C10 witness: an account with zero followers but a non-empty following
list on the ledger is reported as following nobody. -/
theorem getMutualConnections_zero_count_short_circuit_witness :
    (getFollowerCount ⟨.ok 0, .ok 1, .ok [], .ok ["0xb"]⟩ = 0 ∨
      getFollowingCount ⟨.ok 0, .ok 1, .ok [], .ok ["0xb"]⟩ = 0) ∧
    (LedgerEnv.mk (.ok 0) (.ok 1) (.ok []) (.ok ["0xb"])).followsByIndexRPC =
      .ok ["0xb"] ∧
    getMutualConnections ⟨.ok 0, .ok 1, .ok [], .ok ["0xb"]⟩ = ⟨[], [], [], 0⟩ :=
  ⟨Or.inl (by decide), rfl,
   getMutualConnections_zero_count_short_circuit _ (Or.inl (by decide))⟩

/-- C6 (evaluation at the failing input): the recency bonus of
`Math.round(20 * 0.3) = 6` is added to EVERY network-derived candidate,
because `sortedCandidates.indexOf([address, data])` compares a freshly
constructed array by reference and always yields `-1 < 20`; the claim grants
the bonus only to the first 20 ranked entries.  A candidate at rank 25 with
`mutualCount = 40` over a seed of size 50 scores 62 in the code but 56 under
the claim formula. -/
theorem recencyBonus_granted_beyond_first_20 :
    (∀ rand mc ext : Nat, codeScore true rand mc ext =
      min 98 (max 50 (jsRoundDiv (mc * 100 * 7) (ext * 10) + 6))) ∧
    codeScore true 0 40 50 = 62 ∧
    claimScoreC6 40 50 25 = 56 ∧
    codeScore true 0 40 50 ≠ claimScoreC6 40 50 25 := by
  refine ⟨?_, by decide, by decide, by decide⟩
  intro rand mc ext
  have h6 : jsRoundDiv (20 * 3) 10 = 6 := by decide
  have hlt : jsArrayIndexOfFresh < 20 := by decide
  simp only [codeScore, if_pos hlt, h6, if_true]

theorem find?_map_pair (addrs : List String) (ok : String → Bool) (a : String)
    (r : String × Bool)
    (h : (addrs.map (fun x => (x, ok x))).find? (fun q => q.1 == a) = some r) :
    r = (a, ok a) := by
  induction addrs with
  | nil => simp at h
  | cons x xs ih =>
    rw [List.map_cons] at h
    by_cases hx : x = a
    · subst hx
      rw [List.find?_cons_of_pos _ (by simp)] at h
      exact (Option.some.inj h).symm
    · rw [List.find?_cons_of_neg _ (by simp [hx])] at h
      exact ih h

theorem filter_length_lt_of_mem_false {α : Type} (ok : α → Bool) (l : List α)
    (a : α) (ha : a ∈ l) (hok : ok a = false) :
    (l.filter ok).length < l.length := by
  induction l with
  | nil => cases ha
  | cons x xs ih =>
    rcases List.mem_cons.1 ha with rfl | ha
    · rw [List.filter_cons, if_neg (by simp [hok])]
      have := List.length_filter_le ok xs
      simp only [List.length_cons]
      omega
    · rw [List.filter_cons]
      split
      · simp only [List.length_cons]
        exact Nat.succ_lt_succ (ih ha)
      · have := ih ha
        simp only [List.length_cons]
        omega

theorem filter_snd_map_length (ok : String → Bool) (l : List String) :
    ((l.map (fun a => (a, ok a))).filter (fun r => r.2)).length =
      (l.filter ok).length := by
  induction l with
  | nil => rfl
  | cons x xs ih =>
    simp only [List.map_cons, List.filter_cons]
    cases hx : ok x <;> simp [hx, ih]

/-- C7: when a multi-account batch mutation fails as a whole, every selected
account gets an individual attempt (none is abandoned after another account
fails), the report aggregates the individual successes against the requested
total, the all-success toast does not fire as soon as one individual attempt
fails, and an account whose individual attempt failed is not marked followed
in the updated list. -/
theorem followSelected_individual_fallback (env : BatchEnv) (addrs : List String)
    (hlen : 1 < addrs.length) (hb : env.batchOk = false) :
    (handleFollowSelected env addrs).results =
        addrs.map (fun a => (a, env.singleOk a)) ∧
    (handleFollowSelected env addrs).successCount =
        (addrs.filter env.singleOk).length ∧
    (handleFollowSelected env addrs).requested = addrs.length ∧
    (∀ a ∈ addrs, env.singleOk a = false →
      (handleFollowSelected env addrs).allSucceeded = false) ∧
    ∀ fl : List (String × Bool), ∀ p ∈ fl, p.2 = false → env.singleOk p.1 = false →
      (p.1, false) ∈ updateFollowers fl (handleFollowSelected env addrs).results := by
  have hne1 : ¬ addrs.length = 1 := by omega
  have hres : followSelectedResults env addrs =
      addrs.map (fun a => (a, env.singleOk a)) := by
    unfold followSelectedResults
    rw [if_neg hne1]
    by_cases hgt : addrs.length > MAX_BATCH_SIZE
    · rw [if_pos hgt, hb]
      simp
    · rw [if_neg hgt, hb]
      simp
  have hresults : (handleFollowSelected env addrs).results =
      addrs.map (fun a => (a, env.singleOk a)) := by
    unfold handleFollowSelected
    exact hres
  have hcount : (handleFollowSelected env addrs).successCount =
      (addrs.filter env.singleOk).length := by
    unfold handleFollowSelected
    simp only [hres]
    exact filter_snd_map_length env.singleOk addrs
  refine ⟨hresults, hcount, rfl, ?_, ?_⟩
  · intro a ha hok
    have hlt : (addrs.filter env.singleOk).length < addrs.length :=
      filter_length_lt_of_mem_false env.singleOk addrs a ha hok
    have : (handleFollowSelected env addrs).allSucceeded =
        decide ((addrs.filter env.singleOk).length = addrs.length) := by
      unfold handleFollowSelected
      simp only [hres]
      rw [filter_snd_map_length env.singleOk addrs]
    rw [this, decide_eq_false_iff_not]
    omega
  · intro fl p hp hp2 hok
    rw [hresults]
    unfold updateFollowers
    refine List.mem_map.2 ⟨p, hp, ?_⟩
    have himg :
        (match (addrs.map (fun a => (a, env.singleOk a))).find?
            (fun r => r.1 == p.1) with
          | some r => if r.2 then (p.1, true) else p
          | none => p) = p := by
      cases hfind : (addrs.map (fun a => (a, env.singleOk a))).find?
          (fun r => r.1 == p.1) with
      | none => rfl
      | some r =>
        have hr := find?_map_pair addrs env.singleOk p.1 r hfind
        subst hr
        simp [hok]
    obtain ⟨p1, p2⟩ := p
    simp only at hp2
    subst hp2
    exact himg

/-- C7 witness: the batch of X, Y, Z whose batched call throws and whose
individual attempt fails only for Y reports 2 of 3 succeeded and leaves Y
unmarked in the updated list. -/
theorem followSelected_individual_fallback_witness :
    1 < (["0xx", "0xy", "0xz"] : List String).length ∧
    (BatchEnv.mk false (fun a => !(a == "0xy"))).batchOk = false ∧
    (handleFollowSelected ⟨false, fun a => !(a == "0xy")⟩
        ["0xx", "0xy", "0xz"]).results =
      [("0xx", true), ("0xy", false), ("0xz", true)] ∧
    (handleFollowSelected ⟨false, fun a => !(a == "0xy")⟩
        ["0xx", "0xy", "0xz"]).successCount = 2 ∧
    (handleFollowSelected ⟨false, fun a => !(a == "0xy")⟩
        ["0xx", "0xy", "0xz"]).requested = 3 ∧
    (handleFollowSelected ⟨false, fun a => !(a == "0xy")⟩
        ["0xx", "0xy", "0xz"]).allSucceeded = false ∧
    ("0xy", false) ∈ updateFollowers [("0xx", false), ("0xy", false), ("0xz", false)]
      (handleFollowSelected ⟨false, fun a => !(a == "0xy")⟩
        ["0xx", "0xy", "0xz"]).results := by
  have h := followSelected_individual_fallback ⟨false, fun a => !(a == "0xy")⟩
      ["0xx", "0xy", "0xz"] (by decide) rfl
  exact ⟨by decide, rfl, h.1.trans (by decide), h.2.1.trans (by decide),
    h.2.2.1.trans (by decide),
    h.2.2.2.1 "0xy" (by decide) (by decide),
    h.2.2.2.2 [("0xx", false), ("0xy", false), ("0xz", false)] ("0xy", false)
      (by decide) rfl (by decide)⟩

theorem markProcessed_map_fst (cap : Nat) (l : List String) :
    ∀ i : Nat, (markProcessed cap i l).map Prod.fst = l := by
  induction l with
  | nil => intro i; rfl
  | cons a rest ih =>
    intro i
    simp only [markProcessed, List.map_cons, ih]

theorem markProcessed_take (cap : Nat) (l : List String) :
    ∀ i : Nat, (markProcessed cap i l).take (cap - i) =
      (l.take (cap - i)).map (fun a => (a, true)) := by
  induction l with
  | nil => intro i; simp [markProcessed]
  | cons a rest ih =>
    intro i
    rcases Nat.eq_zero_or_pos (cap - i) with h0 | hpos
    · simp [h0]
    · have hi : i < cap := by omega
      have hd : decide (i < cap) = true := decide_eq_true hi
      have hstep : cap - i = (cap - (i + 1)) + 1 := by omega
      rw [hstep]
      simp only [markProcessed, List.take_succ_cons, List.map_cons, hd]
      exact congrArg (List.cons (a, true)) (ih (i + 1))

theorem markProcessed_all_false (cap : Nat) (l : List String) :
    ∀ i : Nat, cap ≤ i → markProcessed cap i l = l.map (fun a => (a, false)) := by
  induction l with
  | nil => intro i _; rfl
  | cons a rest ih =>
    intro i hi
    have hd : decide (i < cap) = false := by
      rw [decide_eq_false_iff_not]
      omega
    simp only [markProcessed, hd, List.map_cons]
    rw [ih (i + 1) (by omega)]

theorem markProcessed_drop (cap : Nat) (l : List String) :
    ∀ i : Nat, (markProcessed cap i l).drop (cap - i) =
      (l.drop (cap - i)).map (fun a => (a, false)) := by
  induction l with
  | nil => intro i; simp [markProcessed]
  | cons a rest ih =>
    intro i
    rcases Nat.eq_zero_or_pos (cap - i) with h0 | hpos
    · rw [h0]
      simp only [List.drop_zero]
      exact markProcessed_all_false cap (a :: rest) i (by omega)
    · have hstep : cap - i = (cap - (i + 1)) + 1 := by omega
      rw [hstep]
      simp only [markProcessed, List.drop_succ_cons]
      exact ih (i + 1)

theorem markProcessed_filter_length (cap : Nat) (l : List String) :
    ∀ i : Nat, ((markProcessed cap i l).filter (fun r => r.2)).length =
      min (cap - i) l.length := by
  induction l with
  | nil => intro i; simp [markProcessed]
  | cons a rest ih =>
    intro i
    simp only [markProcessed, List.filter_cons]
    by_cases hi : i < cap
    · rw [if_pos (decide_eq_true hi)]
      simp only [List.length_cons, ih (i + 1)]
      omega
    · rw [if_neg (by simpa using hi)]
      rw [ih (i + 1)]
      simp only [List.length_cons]
      omega

/-- C8 (counterexample): a 60-target bulk follow through the Followers list
handler is not rejected — `followMany` silently submits only the first 50 —
yet the component marks every selected target as followed and the success
toast reports all 60; target number 55 is reported as successfully followed
although it was never submitted.  Exceeded items are silently dropped without
any report of exclusion to the caller. -/
theorem followers_bulk_follow_silent_drop :
    (followersBulkFollow
        ((List.range 60).map (fun i => toString i))).batchSubmitted.length = 50 ∧
    (followersBulkFollow
        ((List.range 60).map (fun i => toString i))).markedFollowed.length = 60 ∧
    (followersBulkFollow
        ((List.range 60).map (fun i => toString i))).toastedCount = 60 ∧
    "55" ∈ (followersBulkFollow
        ((List.range 60).map (fun i => toString i))).markedFollowed ∧
    "55" ∉ (followersBulkFollow
        ((List.range 60).map (fun i => toString i))).batchSubmitted := by
  decide

/-- C8 (amended): a batch follow request of more than `MAX_BATCH_SIZE = 50`
targets is never rejected: `followMany` deterministically truncates to
exactly the first 50 targets and returns plain success with only a console
warning, carrying no report of the excluded targets.  Whether the excluded
targets are reported depends on the caller: the follower-list handler of
`src/unnamed/part_005` pre-truncates and reports every excluded target as not
processed (50 of n succeeded, the all-success toast does not fire), while the
bulk handlers of `components/Followers.tsx` pass the whole selection to
`followMany` and on success mark and report every selected target — the
excluded ones included — as successfully followed, silently dropping the
excess. -/
theorem batch_cap_silent_truncation (env : BatchEnv) (addrs : List String)
    (hlen : MAX_BATCH_SIZE < addrs.length) (hb : env.batchOk = true) :
    followManyProcessed addrs = addrs.take MAX_BATCH_SIZE ∧
    (followersBulkFollow addrs).batchSubmitted = addrs.take MAX_BATCH_SIZE ∧
    (followersBulkFollow addrs).markedFollowed = addrs ∧
    (followersBulkFollow addrs).toastedCount = addrs.length ∧
    (∀ a ∈ addrs.drop MAX_BATCH_SIZE,
      a ∈ (followersBulkFollow addrs).markedFollowed) ∧
    (handleFollowSelected env addrs).batchSubmitted =
        some (addrs.take MAX_BATCH_SIZE) ∧
    (handleFollowSelected env addrs).results.take MAX_BATCH_SIZE =
      (addrs.take MAX_BATCH_SIZE).map (fun a => (a, true)) ∧
    (handleFollowSelected env addrs).results.drop MAX_BATCH_SIZE =
      (addrs.drop MAX_BATCH_SIZE).map (fun a => (a, false)) ∧
    (handleFollowSelected env addrs).successCount = MAX_BATCH_SIZE ∧
    (handleFollowSelected env addrs).allSucceeded = false := by
  have htr : followManyProcessed addrs = addrs.take MAX_BATCH_SIZE := by
    unfold followManyProcessed
    rw [if_pos hlen]
  have hne1 : ¬ addrs.length = 1 := by
    unfold MAX_BATCH_SIZE at hlen
    omega
  have hres : followSelectedResults env addrs =
      markProcessed MAX_BATCH_SIZE 0 addrs := by
    unfold followSelectedResults
    rw [if_neg hne1, if_pos hlen, hb]
    simp
  have hflen : ((markProcessed MAX_BATCH_SIZE 0 addrs).filter
      (fun r => r.2)).length = MAX_BATCH_SIZE := by
    rw [markProcessed_filter_length]
    omega
  constructor
  · exact htr
  constructor
  · exact htr
  constructor
  · rfl
  constructor
  · rfl
  constructor
  · exact fun a ha => List.mem_of_mem_drop ha
  unfold handleFollowSelected
  simp only [hres]
  refine ⟨?_, ?_, ?_, hflen, ?_⟩
  · rw [if_neg hne1, if_pos hlen]
  · simpa using markProcessed_take MAX_BATCH_SIZE addrs 0
  · simpa using markProcessed_drop MAX_BATCH_SIZE addrs 0
  · rw [hflen, decide_eq_false_iff_not]
    omega

/-- C8 amended, witness: a 60-target batch is reported as 60 successes by the
Followers list handler, while the part_005 handler reports 50 of 60. -/
theorem batch_cap_silent_truncation_witness :
    MAX_BATCH_SIZE < ((List.range 60).map (fun i => toString i)).length ∧
    (BatchEnv.mk true (fun _ => true)).batchOk = true ∧
    (followersBulkFollow
        ((List.range 60).map (fun i => toString i))).toastedCount = 60 ∧
    (handleFollowSelected ⟨true, fun _ => true⟩
        ((List.range 60).map (fun i => toString i))).successCount = MAX_BATCH_SIZE ∧
    (handleFollowSelected ⟨true, fun _ => true⟩
        ((List.range 60).map (fun i => toString i))).allSucceeded = false := by
  have hlen : MAX_BATCH_SIZE <
      ((List.range 60).map (fun i => toString i)).length := by
    simp [MAX_BATCH_SIZE]
  have h := batch_cap_silent_truncation ⟨true, fun _ => true⟩ _ hlen rfl
  exact ⟨hlen, rfl, h.2.2.2.1.trans (by simp),
    h.2.2.2.2.2.2.2.2.1, h.2.2.2.2.2.2.2.2.2⟩

theorem mapSet_mem (m : CandMap) (k : String) (v : CandData) :
    ∀ q ∈ mapSet m k v, q.1 = k ∨ q ∈ m := by
  intro q hq
  unfold mapSet at hq
  split at hq
  · rcases List.mem_map.1 hq with ⟨p, hp, himg⟩
    by_cases hpk : (p.1 == k) = true
    · rw [if_pos hpk] at himg
      rw [← himg]
      exact Or.inl rfl
    · rw [if_neg hpk] at himg
      rw [← himg]
      exact Or.inr hp
  · rcases List.mem_append.1 hq with hq | hq
    · exact Or.inr hq
    · rcases List.mem_singleton.1 hq with rfl
      exact Or.inl rfl

theorem candAccumulate_cons (user : String) (fs : List String) (seed : String)
    (p : String) (rest : List String) (m : CandMap) :
    candAccumulate user fs seed (p :: rest) m =
      candAccumulate user fs seed rest
        (if lowerStr p == lowerStr user || fs.contains (lowerStr p) then m
         else
           mapSet m p
             ⟨((mapGet m p).getD ⟨0, []⟩).mutualCount + 1,
              if ((mapGet m p).getD ⟨0, []⟩).sources.contains seed then
                ((mapGet m p).getD ⟨0, []⟩).sources
              else ((mapGet m p).getD ⟨0, []⟩).sources ++ [seed]⟩) := rfl

theorem candAccumulate_keys (user : String) (fs : List String) (seed : String)
    (pots : List String) :
    ∀ m : CandMap,
      (∀ q ∈ m, lowerStr q.1 ≠ lowerStr user ∧ lowerStr q.1 ∉ fs) →
      ∀ q ∈ candAccumulate user fs seed pots m,
        lowerStr q.1 ≠ lowerStr user ∧ lowerStr q.1 ∉ fs := by
  induction pots with
  | nil =>
    intro m hm
    simpa [candAccumulate] using hm
  | cons p rest ih =>
    intro m hm
    rw [candAccumulate_cons]
    apply ih
    by_cases hcond : (lowerStr p == lowerStr user || fs.contains (lowerStr p)) = true
    · rw [if_pos hcond]
      exact hm
    · rw [if_neg hcond]
      intro q hq
      rcases mapSet_mem _ _ _ q hq with hq1 | hq2
      · rw [hq1]
        simp only [Bool.or_eq_true, beq_iff_eq, not_or] at hcond
        refine ⟨hcond.1, fun hc => hcond.2 ?_⟩
        simpa [List.contains] using hc
      · exact hm q hq2

theorem buildCandidates_keys (ch : Chain) (fs : List String) (extNet : List String) :
    ∀ q ∈ buildCandidates ch fs extNet,
      lowerStr q.1 ≠ lowerStr ch.user ∧ lowerStr q.1 ∉ fs := by
  unfold buildCandidates
  suffices h : ∀ (l : List String) (m : CandMap),
      (∀ q ∈ m, lowerStr q.1 ≠ lowerStr ch.user ∧ lowerStr q.1 ∉ fs) →
      ∀ q ∈ l.foldl
          (fun m seed =>
            candAccumulate ch.user fs seed (ch.followersOf seed)
              (candAccumulate ch.user fs seed (ch.followingOf seed) m)) m,
        lowerStr q.1 ≠ lowerStr ch.user ∧ lowerStr q.1 ∉ fs by
    exact fun q hq => h extNet [] (by simp) q hq
  intro l
  induction l with
  | nil =>
    intro m hm
    simpa using hm
  | cons s rest ih =>
    intro m hm
    rw [List.foldl_cons]
    exact ih _ (candAccumulate_keys _ _ _ _ _ (candAccumulate_keys _ _ _ _ _ hm))

theorem stableInsert_mem {α : Type} (le : α → α → Bool) (x a : α) (l : List α) :
    a ∈ stableInsert le x l ↔ a = x ∨ a ∈ l := by
  induction l with
  | nil => simp [stableInsert]
  | cons y ys ih =>
    unfold stableInsert
    split
    · rw [List.mem_cons, ih, List.mem_cons]
      tauto
    · simp only [List.mem_cons]

theorem stableSort_mem {α : Type} (le : α → α → Bool) (l : List α) (a : α) :
    a ∈ stableSort le l ↔ a ∈ l := by
  unfold stableSort
  suffices h : ∀ (l acc : List α),
      a ∈ l.foldl (fun acc x => stableInsert le x acc) acc ↔ a ∈ acc ∨ a ∈ l by
    simpa using h l []
  intro l
  induction l with
  | nil => intro acc; simp
  | cons x xs ih =>
    intro acc
    rw [List.foldl_cons, ih, stableInsert_mem, List.mem_cons]
    tauto

theorem finalizeCandidates_mem (ch : Chain) (hasMutual : Bool) (extLen : Nat)
    (cfs : List String) (sorted : CandMap) :
    ∀ r ∈ finalizeCandidates ch hasMutual extLen cfs sorted,
      ∃ p ∈ sorted, r.address = p.1 ∧
        cfs.contains (lowerStr p.1) = false ∧
        ch.isFollowingNow ch.user p.1 = false := by
  unfold finalizeCandidates
  suffices h : ∀ (l : CandMap) (acc : List RecOut),
      ∀ r ∈ l.foldl
          (fun acc p =>
            if cfs.contains (lowerStr p.1) then acc
            else if ch.isFollowingNow ch.user p.1 then acc
            else
              acc ++ [⟨p.1, codeScore hasMutual (ch.randFor p.1) p.2.mutualCount extLen,
                      p.2.mutualCount, p.2.sources.take 10⟩]) acc,
        r ∈ acc ∨ ∃ p ∈ l, r.address = p.1 ∧
          cfs.contains (lowerStr p.1) = false ∧
          ch.isFollowingNow ch.user p.1 = false by
    intro r hr
    rcases h sorted [] r hr with h0 | h1
    · cases h0
    · exact h1
  intro l
  induction l with
  | nil =>
    intro acc r hr
    exact Or.inl hr
  | cons p rest ih =>
    intro acc r hr
    rw [List.foldl_cons] at hr
    rcases ih _ r hr with hacc | ⟨q, hq, hprops⟩
    · by_cases h1 : cfs.contains (lowerStr p.1) = true
      · rw [if_pos h1] at hacc
        exact Or.inl hacc
      · rw [if_neg h1] at hacc
        by_cases h2 : ch.isFollowingNow ch.user p.1 = true
        · rw [if_pos h2] at hacc
          exact Or.inl hacc
        · rw [if_neg h2] at hacc
          rcases List.mem_append.1 hacc with hacc | hacc
          · exact Or.inl hacc
          · rcases List.mem_singleton.1 hacc with rfl
            exact Or.inr ⟨p, List.mem_cons_self _ _,
              rfl, Bool.eq_false_iff.2 h1, Bool.eq_false_iff.2 h2⟩
    · exact Or.inr ⟨q, List.mem_cons_of_mem _ hq, hprops⟩

/-- C5: every candidate finalized by the network-derived recommendation path
differs (case-insensitively) from the requesting account, is absent from the
following set used at candidate construction, is absent from the freshly
re-fetched following set used at re-verification, and passes the per-candidate
`isFollowing` read answering false. -/
theorem recommendations_exclude_self_and_followed (ch : Chain) (recs : List RecOut)
    (h : generateRecommendations ch = some recs) :
    ∀ r ∈ recs,
      lowerStr r.address ≠ lowerStr ch.user ∧
      lowerStr r.address ∉ lowerList (recFetchAll (ch.followingOf ch.user)) ∧
      lowerStr r.address ∉ lowerList (recFetchAll (ch.followingOfLater ch.user)) ∧
      ch.isFollowingNow ch.user r.address = false := by
  simp only [generateRecommendations] at h
  split at h
  · exact absurd h (by simp)
  · split at h
    · exact absurd h (by simp)
    · split at h
      · exact absurd h (by simp)
      · intro r hr
        rw [← Option.some.inj h] at hr
        rcases finalizeCandidates_mem _ _ _ _ _ r hr with ⟨p, hp, haddr, hcfs, hnow⟩
        have hpc : p ∈ buildCandidates ch
            (lowerList (recFetchAll (ch.followingOf ch.user)))
            (extendedNetworkOf (recFetchAll (ch.followersOf ch.user))
              (recFetchAll (ch.followingOf ch.user))) := by
          have := List.mem_of_mem_take hp
          rwa [stableSort_mem] at this
        have hkeys := buildCandidates_keys _ _ _ p hpc
        refine ⟨?_, ?_, ?_, ?_⟩
        · rw [haddr]
          exact hkeys.1
        · rw [haddr]
          exact hkeys.2
        · rw [haddr]
          intro hc
          rw [Bool.eq_false_iff] at hcfs
          exact hcfs (by simpa [List.contains] using hc)
        · rw [haddr]
          exact hnow

/-- C5 witness: a concrete chain on which the network-derived path produces
recommendations; its first candidate satisfies every exclusion. -/
theorem recommendations_exclude_self_and_followed_witness :
    generateRecommendations
        ⟨"0xa", fun s => if s = "0xa" then ["0xs"] else [],
         fun s => if s = "0xs" then ["0xc1", "0xc2", "0xc3", "0xc4", "0xc5", "0xc6"] else [],
         fun _ => [], fun _ _ => false, fun _ => 70⟩ =
      some
        [⟨"0xc1", 76, 1, ["0xs"]⟩, ⟨"0xc2", 76, 1, ["0xs"]⟩, ⟨"0xc3", 76, 1, ["0xs"]⟩,
         ⟨"0xc4", 76, 1, ["0xs"]⟩, ⟨"0xc5", 76, 1, ["0xs"]⟩, ⟨"0xc6", 76, 1, ["0xs"]⟩] ∧
    (lowerStr "0xc1" ≠ lowerStr "0xa" ∧
      lowerStr "0xc1" ∉ lowerList (recFetchAll
        ((fun s => if s = "0xs" then ["0xc1", "0xc2", "0xc3", "0xc4", "0xc5", "0xc6"]
          else []) "0xa")) ∧
      lowerStr "0xc1" ∉ lowerList (recFetchAll ((fun _ => ([] : List String)) "0xa")) ∧
      (fun _ _ => false : String → String → Bool) "0xa" "0xc1" = false) := by
  have heq :
      generateRecommendations
          ⟨"0xa", fun s => if s = "0xa" then ["0xs"] else [],
           fun s => if s = "0xs" then ["0xc1", "0xc2", "0xc3", "0xc4", "0xc5", "0xc6"] else [],
           fun _ => [], fun _ _ => false, fun _ => 70⟩ =
        some
          [⟨"0xc1", 76, 1, ["0xs"]⟩, ⟨"0xc2", 76, 1, ["0xs"]⟩, ⟨"0xc3", 76, 1, ["0xs"]⟩,
           ⟨"0xc4", 76, 1, ["0xs"]⟩, ⟨"0xc5", 76, 1, ["0xs"]⟩, ⟨"0xc6", 76, 1, ["0xs"]⟩] := by
    decide
  have h := recommendations_exclude_self_and_followed _ _ heq
      ⟨"0xc1", 76, 1, ["0xs"]⟩ (by decide)
  exact ⟨heq, h⟩
